import Mathlib

set_option maxRecDepth 4000

/-!
Verification development for the chain-puzzle repository.

The repository contains two variants of the same toy:

* an auto-merge variant (`src/index.tsx`, component `Chain`): chains are
  rigid compound bodies; a `collisionStart` handler (`handleCollision`)
  merges two chains when two of their links touch;
* a click-to-open puzzle variant (`src/unnamed/part_002`, component
  `ChainPuzzle`): chains are composites of bodies joined by distance
  constraints; a `mousedown` handler (`handleMouseDown`) drives the
  Idle / LinkOpened / Connecting state machine.

The physics engine (Matter.js) is an external collaborator; its world is
modelled through the capability surface the spec gives it in section 6:
a flat collection of constraints (create/destroy/query by touched body)
and of top-level bodies/composites.  Bodies are identified by their
engine ids, which are globally unique.  Render-only mutations (colors)
are not modelled.
-/

/-- A Matter.js constraint as seen by the handlers: its engine id, the ids
of the bodies at its two ends (`none` models an unset end / a fixed world
point, as in the puzzle variant's anchor constraint), and its label
(`"Mouse Constraint"` marks the drag constraint). -/
structure MConstraint where
  cid : Nat
  bodyA : Option Nat
  bodyB : Option Nat
  label : String
deriving DecidableEq

/-- Translation of `c.bodyA === body || c.bodyB === body`: the constraint touches the
body with the given id (object identity becomes id equality). -/
def touches (c : MConstraint) (b : Nat) : Bool :=
  c.bodyA == some b || c.bodyB == some b

/-! ## Auto-merge variant (`src/index.tsx`, first `Chain` component)

Chains are compound bodies created by `Body.create({parts: ...})`.
In Matter.js `body.parts[0]` is the compound body itself and the actual
links are `parts.slice(1)`; the model's `parts` field holds that slice,
so `compositeB.parts.slice(1)` becomes `cb.parts` and the membership test
`c.parts.some(b => b.id === body.id)` becomes
`c.id == body.id || c.parts.any (fun b => b.id == body.id)`. -/

/-- A rigid body taking part in a collision pair: engine id and label
(chain links carry the label `"chainLink"`). -/
structure CollisionBody where
  id : Nat
  label : String
deriving DecidableEq

/-- A chain of the auto-merge variant: a compound body with its link
parts (`parts.slice(1)` of the Matter.js body). -/
structure CompoundChain where
  id : Nat
  parts : List CollisionBody
deriving DecidableEq

/-- One collision pair reported by the engine. -/
structure CollisionPair where
  bodyA : CollisionBody
  bodyB : CollisionBody
deriving DecidableEq

/-- State touched by `handleCollision`: the tracked chains
(`chainsRef.current`), the ids of the compound bodies present in the
world, the world's constraints, and the instruction text. -/
structure ResolverState where
  chains : List CompoundChain
  worldBodies : List Nat
  worldConstraints : List MConstraint
  instruction : String
deriving DecidableEq

/-- The `findParentComposite` helper of `handleCollision`:
`chainsRef.current.find(c => c.parts.some(b => b.id === body.id))`
(the compound itself is `parts[0]`, hence the `c.id == body.id` disjunct). -/
def findParentComposite (chains : List CompoundChain) (body : CollisionBody) :
    Option CompoundChain :=
  chains.find? (fun c => c.id == body.id || c.parts.any (fun b => b.id == body.id))

/-- Translation of `allConstraints.filter(c => (c.bodyA === body || c.bodyB === body) &&
c.label !== 'Mouse Constraint').length` — the number of structural (i.e.
non-drag) constraints touching the body in the world. -/
def chainConstraintCount (cs : List MConstraint) (body : CollisionBody) : Nat :=
  (cs.filter (fun c => touches c body.id && !(c.label == "Mouse Constraint"))).length

/-- Steps 5 of `handleCollision` (lines 90-108 of `src/index.tsx`):
transfer `compositeB.parts.slice(1)` into `compositeA`'s parts
(`Body.setParts`), remove the emptied `compositeB` from the world
(`World.remove`) and from `chainsRef.current` (filter by id), and set the
"connected" instruction.  The in-place mutation of the aliased compound
body is rendered as a map over the tracked list by id. -/
def mergeChains (s : ResolverState) (ca cb : CompoundChain) : ResolverState :=
  { chains :=
      (s.chains.map (fun c =>
        if c.id == ca.id then { id := ca.id, parts := ca.parts ++ cb.parts } else c)).filter
        (fun c => !(c.id == cb.id)),
    worldBodies := s.worldBodies.filter (fun i => !(i == cb.id)),
    worldConstraints := s.worldConstraints,
    instruction := "Nice! Keep connecting to form one single chain." }

/-- The per-pair body of `handleCollision`'s loop: `none` means the pair
was skipped (`continue`), `some s'` means the pair was accepted and the
merge performed.  The order of checks follows the source: label check,
composite lookup, same-chain check, end-link (constraint-count) check.
(The `!compositeA.parts` staleness check can never fire: a compound body
always has a truthy `parts` array, so it is not represented.) -/
def tryMergePair (s : ResolverState) (p : CollisionPair) : Option ResolverState :=
  if p.bodyA.label == "chainLink" && p.bodyB.label == "chainLink" then
    match findParentComposite s.chains p.bodyA, findParentComposite s.chains p.bodyB with
    | some ca, some cb =>
      if ca.id == cb.id then none
      else if 2 ≤ chainConstraintCount s.worldConstraints p.bodyA
              || 2 ≤ chainConstraintCount s.worldConstraints p.bodyB then none
      else some (mergeChains s ca cb)
    | _, _ => none
  else none

/-- The `handleCollision` callback: iterate over the tick's pairs, `continue` on a
rejected pair, and `break` right after the first accepted merge. -/
def handleCollision (s : ResolverState) : List CollisionPair → ResolverState
  | [] => s
  | p :: rest =>
    match tryMergePair s p with
    | some s' => s'
    | none => handleCollision s rest

/-- The multiset of links held by the tracked chains (the registry's
total link population, used to state preservation of links). -/
def linkBag (chains : List CompoundChain) : Multiset CollisionBody :=
  (chains.map (fun c => (c.parts : Multiset CollisionBody))).sum

/-! ## Puzzle variant (`src/unnamed/part_002`, component `ChainPuzzle`)

Chains are `Matter.Composite`s with a `bodies` list and a `constraints`
list.  `Composites.chain` creates one constraint between each pair of
consecutive bodies of a composite and stores it in the composite;
`World.add` / `World.remove` add/remove constraints to/from the world.
Fresh engine ids are drawn from a counter threaded through the state.
Bodies are represented by their ids (colors are render-only). -/

/-- The `GameState` enumeration from `src/unnamed/part_001` (`types.ts`). -/
inductive GameState where
  | IDLE
  | LINK_OPENED
  | CONNECTING
deriving DecidableEq

/-- A `Matter.Composite` as tracked in `chainsRef.current`. -/
structure PComposite where
  id : Nat
  bodies : List Nat
  constraints : List MConstraint
deriving DecidableEq

/-- The `OpenLinkInfo` interface from `src/unnamed/part_001`. -/
structure OpenLinkInfo where
  body : Nat
  originalConstraints : List MConstraint
  connectedEnds : List Nat
  newConstraints : List MConstraint
deriving DecidableEq

/-- The state touched by `handleMouseDown`: the React state
(`gameState`, `openLinkInfo`, `instruction`), the chain registry
(`chainsRef.current`), the physics world's constraints, and the engine's
fresh-id counter. -/
structure PuzzleState where
  gameState : GameState
  openLinkInfo : Option OpenLinkInfo
  instruction : String
  chains : List PComposite
  world : List MConstraint
  nextId : Nat
deriving DecidableEq

/-- Translation of `getBodyChain`: `chainsRef.current.find(chain => chain.bodies.includes(body))`. -/
def getBodyChain (chains : List PComposite) (b : Nat) : Option PComposite :=
  chains.find? (fun ch => ch.bodies.contains b)

/-- The ends contributed by one chain in `getChainEnds`:
`bodies[0]`, and `bodies[bodies.length - 1]` when there is more than one
body; nothing for an empty chain. -/
def compositeEnds (ch : PComposite) : List Nat :=
  match ch.bodies with
  | [] => []
  | [b] => [b]
  | b :: c :: rest => [b, (c :: rest).getLast (List.cons_ne_nil c rest)]

/-- Translation of `getChainEnds`: collect the end bodies of every tracked chain. -/
def getChainEnds (chains : List PComposite) : List Nat :=
  chains.flatMap compositeEnds

/-- Translation of `isChainEnd`: `getChainEnds().includes(body)`. -/
def isChainEnd (chains : List PComposite) (b : Nat) : Bool :=
  (getChainEnds chains).contains b

/-- Translation of `Composites.chain(composite, ...)`: create one constraint (with a
fresh id) between each pair of consecutive bodies; returns the created
constraints together with the advanced id counter. -/
def mkChainConstraints : Nat → List Nat → List MConstraint × Nat
  | n, [] => ([], n)
  | n, [_] => ([], n)
  | n, a :: b :: rest =>
    let t := mkChainConstraints (n + 1) (b :: rest)
    (⟨n, some a, some b, "Constraint"⟩ :: t.1, t.2)

/-- Translation of `chainsRef.current.splice(oldChainIndex, 1, newChain1, newChain2)`
where `oldChainIndex = chainsRef.current.indexOf(bodyChain)`: replace the
first occurrence of the found chain by the two new ones. -/
def spliceReplace (chains : List PComposite) (target c1 c2 : PComposite) :
    List PComposite :=
  match chains with
  | [] => []
  | ch :: rest =>
    if ch = target then c1 :: c2 :: rest else ch :: spliceReplace rest target c1 c2

/-- The `GameState.IDLE` branch of `handleMouseDown` (lines 157-192 of
`src/unnamed/part_002`): find the clicked body's chain, collect the world
constraints touching the clicked body, bail out if there are more than
two, remove them from the world, split the chain's body list around the
clicked body, rebuild the two sub-composites (`Composite.create` +
`Composites.chain`), splice them into the registry in place of the old
chain, drop empty chains, open the session and move to `LINK_OPENED`. -/
def handleIdle (s : PuzzleState) (clicked : Nat) : PuzzleState :=
  match getBodyChain s.chains clicked with
  | none => s
  | some bodyChain =>
    let originalConstraints := s.world.filter (fun c => touches c clicked)
    if 2 < originalConstraints.length then s
    else
      let world' := s.world.filter (fun c => !(touches c clicked))
      let bodyIndex := bodyChain.bodies.indexOf clicked
      let chain1Bodies := bodyChain.bodies.take bodyIndex
      let chain2Bodies := bodyChain.bodies.drop (bodyIndex + 1)
      let p1 := mkChainConstraints (s.nextId + 2) chain1Bodies
      let p2 := mkChainConstraints p1.2 chain2Bodies
      let newChain1 : PComposite := ⟨s.nextId, chain1Bodies, p1.1⟩
      let newChain2 : PComposite := ⟨s.nextId + 1, chain2Bodies, p2.1⟩
      { gameState := GameState.LINK_OPENED,
        openLinkInfo := some ⟨clicked, originalConstraints, [], []⟩,
        instruction := "Link opened. Click a chain end to connect.",
        chains := (spliceReplace s.chains bodyChain newChain1 newChain2).filter
          (fun c => !c.bodies.isEmpty),
        world := world',
        nextId := p2.2 }

/-- The `forEach` over `openLinkInfo.connectedEnds` in the finalize path:
accumulate the distinct chains owning the connected ends and the body
groups they contribute — the chain's bodies reversed when the connected
end is `bodies[0]`, in source order otherwise. -/
def finalizeFold (chains : List PComposite) (ends : List Nat) :
    List PComposite × List Nat :=
  ends.foldl
    (fun acc endBody =>
      match getBodyChain chains endBody with
      | some chain =>
        if acc.1.contains chain then acc
        else (acc.1 ++ [chain],
          acc.2 ++ (if chain.bodies.head? == some endBody then chain.bodies.reverse
                    else chain.bodies))
      | none => acc)
    ([], [])

/-- The `LINK_OPENED`/`CONNECTING` branch of `handleMouseDown`
(lines 194-264 of `src/unnamed/part_002`): clicking the opened link
finalizes (when the session has new constraints) or cancels (when it has
none); clicking a chain end that is not the opened link, with fewer than
two connections so far and not already connected, adds a connector
constraint to the world and records it in the session.  The instruction
chosen after a connection reads the session *before* the update, exactly
as the source closure does. -/
def handleOpened (s : PuzzleState) (clicked : Nat) : PuzzleState :=
  match s.openLinkInfo with
  | none => s
  | some info =>
    if clicked == info.body then
      if 0 < info.newConstraints.length then
        let fr := finalizeFold s.chains info.connectedEnds
        let bodiesToGroup := info.body :: fr.2
        let pc := mkChainConstraints (s.nextId + 1) bodiesToGroup
        let newChainComposite : PComposite := ⟨s.nextId, bodiesToGroup, pc.1⟩
        { gameState := GameState.IDLE,
          openLinkInfo := none,
          instruction := "Connection closed. Click another link to open it.",
          chains := s.chains.filter (fun c => !(fr.1.contains c)) ++ [newChainComposite],
          world := s.world,
          nextId := pc.2 }
      else
        { gameState := GameState.IDLE,
          openLinkInfo := none,
          instruction := "Action cancelled. Click a link to open it.",
          chains := s.chains,
          world := s.world ++ info.originalConstraints,
          nextId := s.nextId }
    else
      if isChainEnd s.chains clicked && decide (info.connectedEnds.length < 2)
          && !(info.connectedEnds.contains clicked) then
        let newC : MConstraint := ⟨s.nextId, some info.body, some clicked, "Constraint"⟩
        { gameState := GameState.CONNECTING,
          openLinkInfo := some ⟨info.body, info.originalConstraints,
            info.connectedEnds ++ [clicked], info.newConstraints ++ [newC]⟩,
          instruction :=
            if info.connectedEnds.length == 1 then
              "Connected one end. Click another end or click the yellow link to close."
            else
              "Connected two ends. Click the yellow link to close the connection.",
          chains := s.chains,
          world := s.world ++ [newC],
          nextId := s.nextId + 1 }
      else s

/-- The `handleMouseDown` callback, dispatching on the game state; the clicked body is
the topmost body the pointer query returned. -/
def handleMouseDown (s : PuzzleState) (clicked : Nat) : PuzzleState :=
  match s.gameState with
  | GameState.IDLE => handleIdle s clicked
  | GameState.LINK_OPENED => handleOpened s clicked
  | GameState.CONNECTING => handleOpened s clicked

/-- The structural constraint of the initial puzzle chain joining bodies
`i` and `i + 1` (created by `Composites.chain` at setup). -/
def initConstraint (i : Nat) : MConstraint :=
  ⟨100 + i, some i, some (i + 1), "Constraint"⟩

/-- The initial state of the puzzle variant (`src/unnamed/part_002`
setup): one chain of ten links (modelled with ids 0..9), nine structural
constraints between consecutive links, and the anchor constraint tying
body 0 to a fixed world point; game state `IDLE`. -/
def initPuzzleState : PuzzleState :=
  { gameState := GameState.IDLE,
    openLinkInfo := none,
    instruction := "Click on a chain link to open it.",
    chains := [⟨50, [0, 1, 2, 3, 4, 5, 6, 7, 8, 9],
      (List.range 9).map initConstraint⟩],
    world := ((List.range 9).map initConstraint) ++
      [⟨200, none, some 0, "Constraint"⟩],
    nextId := 300 }

/-- The pool of engine ids a chain of the auto-merge variant occupies:
the compound body's own id followed by the ids of its link parts
(`parts[0].id :: parts.slice(1).map(id)` of the Matter.js body).  Engine
ids are globally unique, so the concatenation of these pools over the
tracked chains contains no duplicate — the invariant the idempotence
argument relies on. -/
def idBlock (c : CompoundChain) : List Nat :=
  c.id :: c.parts.map (fun b => b.id)

/-- A reachable finalize of the puzzle variant, starting from the
initial ten-link chain: open the link with id 1, connect the sub-chain
end with id 2, then click the opened link again to close. -/
def puzzleFinalizeTrace : PuzzleState :=
  handleMouseDown (handleMouseDown (handleMouseDown initPuzzleState 1) 2) 1

/-- Concrete link body used by the collision-variant witnesses. -/
def rb (i : Nat) : CollisionBody := ⟨i, "chainLink"⟩

/-- Concrete two-link chain used by the collision-variant witnesses. -/
def rchainA : CompoundChain := ⟨100, [rb 1, rb 2]⟩

/-- Concrete two-link chain used by the collision-variant witnesses. -/
def rchainB : CompoundChain := ⟨200, [rb 3, rb 4]⟩

/-- Concrete resolver state used by the collision-variant witnesses: two
two-link chains, each with one internal structural constraint. -/
def rs0 : ResolverState :=
  { chains := [rchainA, rchainB],
    worldBodies := [100, 200],
    worldConstraints := [⟨500, some 1, some 2, "Constraint"⟩,
      ⟨501, some 3, some 4, "Constraint"⟩],
    instruction := "Drag the chains together to connect them." }

/-- Concrete collision pair (end link of `rchainA` against end link of
`rchainB`) used by the collision-variant witnesses. -/
def rp0 : CollisionPair := ⟨rb 2, rb 3⟩

/-- Concrete structural constraint of the three-link puzzle chain used
by the puzzle-variant witness. -/
def w01 : MConstraint := ⟨70, some 0, some 1, "Constraint"⟩

/-- Concrete structural constraint of the three-link puzzle chain used
by the puzzle-variant witness. -/
def w12 : MConstraint := ⟨71, some 1, some 2, "Constraint"⟩

/-- Concrete puzzle state (one three-link chain, idle) used by the
puzzle-variant witness. -/
def ps0 : PuzzleState :=
  { gameState := GameState.IDLE,
    openLinkInfo := none,
    instruction := "Click on a chain link to open it.",
    chains := [⟨7, [0, 1, 2], [w01, w12]⟩],
    world := [w01, w12],
    nextId := 20 }

/-! ## Claims about the collision merge resolver -/

/-- C2: for every collision pair, a merge is performed only if both
bodies carry the `chainLink` label and each body touches at most one
structural (non-drag) constraint in the physical world; contrapositively
a pair one of whose bodies is an interior link (two or more structural
constraints) is never merged. -/
theorem c2_merge_only_between_end_links (s : ResolverState) (p : CollisionPair)
    (s' : ResolverState) (h : tryMergePair s p = some s') :
    p.bodyA.label = "chainLink" ∧ p.bodyB.label = "chainLink" ∧
    chainConstraintCount s.worldConstraints p.bodyA ≤ 1 ∧
    chainConstraintCount s.worldConstraints p.bodyB ≤ 1 := by
  unfold tryMergePair at h
  by_cases hl : (p.bodyA.label == "chainLink" && p.bodyB.label == "chainLink") = true
  · rw [if_pos hl] at h
    simp only [Bool.and_eq_true, beq_iff_eq] at hl
    refine ⟨hl.1, hl.2, ?_, ?_⟩ <;>
    · cases hA : findParentComposite s.chains p.bodyA with
      | none => rw [hA] at h; exact absurd h (by simp)
      | some ca =>
        cases hB : findParentComposite s.chains p.bodyB with
        | none => rw [hA, hB] at h; exact absurd h (by simp)
        | some cb =>
          rw [hA, hB] at h
          dsimp only at h
          by_cases hid : (ca.id == cb.id) = true
          · rw [if_pos hid] at h; exact absurd h (by simp)
          · rw [if_neg hid] at h
            by_cases hc : (2 ≤ chainConstraintCount s.worldConstraints p.bodyA
                || 2 ≤ chainConstraintCount s.worldConstraints p.bodyB) = true
            · rw [if_pos hc] at h; exact absurd h (by simp)
            · simp only [Bool.or_eq_true, decide_eq_true_eq, not_or] at hc
              omega
  · rw [if_neg hl] at h; exact absurd h (by simp)

/-- C4: one invocation of `handleCollision` performs at most one merge:
either every pair of the tick is rejected and the state is unchanged, or
the tick's pairs decompose into a rejected prefix, a first accepted pair,
and an unprocessed remainder, and the invocation's result is exactly the
state after that single merge. -/
theorem c4_at_most_one_merge_per_invocation (s : ResolverState)
    (pairs : List CollisionPair) :
    (handleCollision s pairs = s ∧ ∀ p ∈ pairs, tryMergePair s p = none) ∨
    (∃ l1 p l2 s', pairs = l1 ++ p :: l2 ∧ (∀ q ∈ l1, tryMergePair s q = none) ∧
      tryMergePair s p = some s' ∧ handleCollision s pairs = s') := by
  induction pairs with
  | nil => exact Or.inl ⟨rfl, by simp⟩
  | cons p rest ih =>
    cases hm : tryMergePair s p with
    | some s' =>
      exact Or.inr ⟨[], p, rest, s', rfl, by simp, hm, by simp [handleCollision, hm]⟩
    | none =>
      cases ih with
      | inl hcase =>
        refine Or.inl ⟨by simp [handleCollision, hm, hcase.1], ?_⟩
        intro q hq
        rcases List.mem_cons.mp hq with rfl | hq'
        · exact hm
        · exact hcase.2 q hq'
      | inr hcase =>
        obtain ⟨l1, q, l2, s', hdec, hpre, hacc, heq⟩ := hcase
        refine Or.inr ⟨p :: l1, q, l2, s', by rw [hdec]; rfl, ?_, hacc, ?_⟩
        · intro r hr
          rcases List.mem_cons.mp hr with rfl | hr'
          · exact hm
          · exact hpre r hr'
        · simp [handleCollision, hm, heq]

/-- C2 witness: a concrete accepted merge between the end links of the
two witness chains. -/
theorem c2_witness :
    rp0.bodyA.label = "chainLink" ∧ rp0.bodyB.label = "chainLink" ∧
    chainConstraintCount rs0.worldConstraints rp0.bodyA ≤ 1 ∧
    chainConstraintCount rs0.worldConstraints rp0.bodyB ≤ 1 :=
  c2_merge_only_between_end_links rs0 rp0 (mergeChains rs0 rchainA rchainB) (by decide)

/-- The merge map of `mergeChains` rewrites each tracked chain in place,
so it leaves the list of chain ids unchanged. -/
theorem mergeMap_map_id (ca cb : CompoundChain) (l : List CompoundChain) :
    (l.map (fun c => if c.id == ca.id then
      ({ id := ca.id, parts := ca.parts ++ cb.parts } : CompoundChain) else c)).map
      (fun c => c.id) = l.map (fun c => c.id) := by
  induction l with
  | nil => rfl
  | cons c t ih =>
    simp only [List.map_cons, ih]
    by_cases h : (c.id == ca.id) = true
    · rw [if_pos h]
      simp only [beq_iff_eq] at h
      simp [h]
    · rw [if_neg h]

/-- Removing the chains carrying an id that no tracked chain has is a
no-op. -/
theorem filter_remove_id_of_not_mem (x : Nat) (l : List CompoundChain)
    (h : x ∉ l.map (fun c => c.id)) :
    l.filter (fun c => !(c.id == x)) = l := by
  rw [List.filter_eq_self]
  intro c hc
  simp only [Bool.not_eq_eq_eq_not, Bool.not_true, beq_eq_false_iff_ne]
  intro e
  exact h (e ▸ List.mem_map_of_mem (fun c => c.id) hc)

/-- Removing by id from a list of chains with pairwise-distinct ids, one
of which is the removed chain, drops exactly one element. -/
theorem filter_remove_id_length (x : Nat) :
    ∀ l : List CompoundChain, (l.map (fun c => c.id)).Nodup →
      x ∈ l.map (fun c => c.id) →
      (l.filter (fun c => !(c.id == x))).length + 1 = l.length := by
  intro l
  induction l with
  | nil => intro _ hx; cases hx
  | cons c t ih =>
    intro hnd hx
    simp only [List.map_cons, List.nodup_cons] at hnd
    by_cases h : (c.id == x) = true
    · simp only [beq_iff_eq] at h
      rw [List.filter_cons_of_neg (by simp [h])]
      rw [filter_remove_id_of_not_mem x t (h ▸ hnd.1)]
      simp
    · rw [List.filter_cons_of_pos (by simp [h])]
      have hx' : x ∈ t.map (fun c => c.id) := by
        rcases List.mem_cons.mp hx with e | hm
        · exact absurd e.symm (by simpa using h)
        · exact hm
      simp only [List.length_cons]
      rw [← ih hnd.2 hx']

/-- Unfolding of `linkBag` on a cons. -/
theorem linkBag_cons (c : CompoundChain) (t : List CompoundChain) :
    linkBag (c :: t) = (c.parts : Multiset CollisionBody) + linkBag t := by
  simp [linkBag]

/-- Removing a chain by id removes exactly its parts from the registry's
link population (when chain ids are pairwise distinct). -/
theorem linkBag_filter_remove (x : CompoundChain) :
    ∀ l : List CompoundChain, (l.map (fun c => c.id)).Nodup → x ∈ l →
      linkBag (l.filter (fun c => !(c.id == x.id))) +
        (x.parts : Multiset CollisionBody) = linkBag l := by
  intro l
  induction l with
  | nil => intro _ hx; cases hx
  | cons c t ih =>
    intro hnd hx
    simp only [List.map_cons, List.nodup_cons] at hnd
    by_cases h : (c.id == x.id) = true
    · simp only [beq_iff_eq] at h
      have hxc : x = c := by
        rcases List.mem_cons.mp hx with rfl | hm
        · rfl
        · exact absurd (h ▸ List.mem_map_of_mem (fun c => c.id) hm) hnd.1
      rw [List.filter_cons_of_neg (by simp [h])]
      rw [filter_remove_id_of_not_mem x.id t (by rw [← h]; exact hnd.1)]
      rw [linkBag_cons, hxc, add_comm]
    · have hxt : x ∈ t := by
        rcases List.mem_cons.mp hx with rfl | hm
        · exact absurd (by simp) h
        · exact hm
      rw [List.filter_cons_of_pos (by simp [h]), linkBag_cons, linkBag_cons,
        add_assoc, ih hnd.2 hxt]

/-- The merge map is a no-op on chains whose id pool does not contain
the surviving chain's id. -/
theorem mergeMap_of_not_mem (ca cb : CompoundChain) (l : List CompoundChain)
    (h : ca.id ∉ l.map (fun c => c.id)) :
    l.map (fun c => if c.id == ca.id then
      ({ id := ca.id, parts := ca.parts ++ cb.parts } : CompoundChain) else c) = l := by
  induction l with
  | nil => rfl
  | cons c t ih =>
    simp only [List.map_cons, List.mem_cons, not_or] at h ⊢
    rw [if_neg (by simp [Ne.symm h.1]), ih h.2]

/-- The merge map adds exactly the absorbed chain's parts to the
registry's link population (when chain ids are pairwise distinct). -/
theorem linkBag_mergeMap (ca cb : CompoundChain) :
    ∀ l : List CompoundChain, (l.map (fun c => c.id)).Nodup → ca ∈ l →
      linkBag (l.map (fun c => if c.id == ca.id then
        ({ id := ca.id, parts := ca.parts ++ cb.parts } : CompoundChain) else c)) =
      linkBag l + (cb.parts : Multiset CollisionBody) := by
  intro l
  induction l with
  | nil => intro _ hx; cases hx
  | cons c t ih =>
    intro hnd hx
    simp only [List.map_cons, List.nodup_cons] at hnd
    by_cases h : (c.id == ca.id) = true
    · simp only [beq_iff_eq] at h
      have hca : ca = c := by
        rcases List.mem_cons.mp hx with rfl | hm
        · rfl
        · exact absurd (h ▸ List.mem_map_of_mem (fun c => c.id) hm) hnd.1
      rw [List.map_cons, if_pos (by simp [h])]
      rw [mergeMap_of_not_mem ca cb t (by rw [← hca] at hnd; exact hnd.1)]
      rw [linkBag_cons, linkBag_cons, hca]
      rw [show ({ id := c.id, parts := c.parts ++ cb.parts } : CompoundChain).parts
        = c.parts ++ cb.parts from rfl]
      rw [← Multiset.coe_add]
      exact add_right_comm _ _ _
    · have hca : ca ∈ t := by
        rcases List.mem_cons.mp hx with rfl | hm
        · exact absurd (by simp) h
        · exact hm
      rw [List.map_cons, if_neg h, linkBag_cons, linkBag_cons, ih hnd.2 hca, add_assoc]

/-- The merged chain (the survivor holding both chains' links) is in the
registry after `mergeChains`, provided the survivor was tracked and the
two chains are distinct. -/
theorem mergeChains_new_mem (s : ResolverState) (ca cb : CompoundChain)
    (hca : ca ∈ s.chains) (hne : ca.id ≠ cb.id) :
    ({ id := ca.id, parts := ca.parts ++ cb.parts } : CompoundChain)
      ∈ (mergeChains s ca cb).chains := by
  unfold mergeChains
  rw [List.mem_filter]
  exact ⟨List.mem_map.mpr ⟨ca, hca, by simp⟩, by simp [hne]⟩

/-- Every chain tracked after `mergeChains` is either the merged
survivor or an untouched chain of the previous registry whose id differs
from both merged chains' ids. -/
theorem mergeChains_mem_elim (s : ResolverState) (ca cb : CompoundChain)
    (c : CompoundChain) (h : c ∈ (mergeChains s ca cb).chains) :
    c = ({ id := ca.id, parts := ca.parts ++ cb.parts } : CompoundChain) ∨
    (c ∈ s.chains ∧ c.id ≠ ca.id ∧ c.id ≠ cb.id) := by
  unfold mergeChains at h
  rw [List.mem_filter] at h
  obtain ⟨hmem, hid⟩ := h
  simp only [Bool.not_eq_eq_eq_not, Bool.not_true, beq_eq_false_iff_ne] at hid
  obtain ⟨c0, hc0, he⟩ := List.mem_map.mp hmem
  by_cases h0 : (c0.id == ca.id) = true
  · rw [if_pos h0] at he
    exact Or.inl he.symm
  · rw [if_neg h0] at he
    subst he
    exact Or.inr ⟨hc0, by simpa using h0, hid⟩

/-- Every chain tracked after `mergeChains` carries the id of a chain
that was already tracked before it. -/
theorem mergeChains_mem_id (s : ResolverState) (ca cb : CompoundChain)
    (hca : ca ∈ s.chains) (c : CompoundChain)
    (h : c ∈ (mergeChains s ca cb).chains) :
    c.id ∈ s.chains.map (fun x => x.id) := by
  rcases mergeChains_mem_elim s ca cb c h with rfl | ⟨hc, _, _⟩
  · exact List.mem_map_of_mem (fun x => x.id) hca
  · exact List.mem_map_of_mem (fun x => x.id) hc

/-- An accepted pair resolves both bodies to tracked chains and yields
exactly the `mergeChains` state for them. -/
theorem tryMergePair_eq_merge (s : ResolverState) (p : CollisionPair)
    (ca cb : CompoundChain) (s' : ResolverState)
    (hA : findParentComposite s.chains p.bodyA = some ca)
    (hB : findParentComposite s.chains p.bodyB = some cb)
    (hacc : tryMergePair s p = some s') :
    s' = mergeChains s ca cb ∧ ca.id ≠ cb.id ∧
    (p.bodyA.label == "chainLink" && p.bodyB.label == "chainLink") = true := by
  unfold tryMergePair at hacc
  by_cases hl : (p.bodyA.label == "chainLink" && p.bodyB.label == "chainLink") = true
  · rw [if_pos hl, hA, hB] at hacc
    dsimp only at hacc
    by_cases hid : (ca.id == cb.id) = true
    · rw [if_pos hid] at hacc; exact absurd hacc (by simp)
    · rw [if_neg hid] at hacc
      by_cases hc : (2 ≤ chainConstraintCount s.worldConstraints p.bodyA
          || 2 ≤ chainConstraintCount s.worldConstraints p.bodyB) = true
      · rw [if_pos hc] at hacc; exact absurd hacc (by simp)
      · rw [if_neg hc] at hacc
        exact ⟨(Option.some.injEq _ _ ▸ hacc).symm, by simpa using hid, hl⟩
  · rw [if_neg hl] at hacc; exact absurd hacc (by simp)

/-- Every chain tracked after a resolver invocation carries the id of a
previously tracked chain (merges only consume chains, they never mint a
new identity). -/
theorem handleCollision_mem_id :
    ∀ (ps : List CollisionPair) (s : ResolverState) (c : CompoundChain),
      c ∈ (handleCollision s ps).chains → c.id ∈ s.chains.map (fun x => x.id) := by
  intro ps
  induction ps with
  | nil => intro s c h; exact List.mem_map_of_mem (fun x => x.id) h
  | cons p rest ih =>
    intro s c h
    rw [handleCollision] at h
    cases hm : tryMergePair s p with
    | some s' =>
      rw [hm] at h
      dsimp only at h
      cases hA : findParentComposite s.chains p.bodyA with
      | none => unfold tryMergePair at hm; rw [hA] at hm; revert hm; split <;> simp
      | some ca =>
        cases hB : findParentComposite s.chains p.bodyB with
        | none => unfold tryMergePair at hm; rw [hA, hB] at hm; revert hm; split <;> simp
        | some cb =>
          obtain ⟨rfl, -, -⟩ := tryMergePair_eq_merge s p ca cb s' hA hB hm
          exact mergeChains_mem_id s ca cb (List.mem_of_find?_eq_some hA) c h
    | none =>
      rw [hm] at h
      dsimp only at h
      exact ih s c h

/-- C3: for every accepted merge, the absorbed chain's links are all
transferred into the surviving chain, the absorbed chain is removed from
the registry and from the physics world, the registry's chain count
drops by exactly one, the registry's total link population is unchanged
(no link lost or duplicated), and no chain carrying the absorbed chain's
identity can be tracked after any later invocation. -/
theorem c3_merge_absorbs_chain (s : ResolverState) (p : CollisionPair)
    (ca cb : CompoundChain) (s' : ResolverState)
    (hA : findParentComposite s.chains p.bodyA = some ca)
    (hB : findParentComposite s.chains p.bodyB = some cb)
    (hacc : tryMergePair s p = some s')
    (hnodup : (s.chains.map (fun c => c.id)).Nodup) :
    ({ id := ca.id, parts := ca.parts ++ cb.parts } : CompoundChain) ∈ s'.chains ∧
    (∀ c ∈ s'.chains, c.id ≠ cb.id) ∧
    cb.id ∉ s'.worldBodies ∧
    s'.chains.length + 1 = s.chains.length ∧
    linkBag s'.chains = linkBag s.chains ∧
    ∀ ps : List CollisionPair,
      ((handleCollision s' ps).chains.all (fun c => !(c.id == cb.id))) = true := by
  obtain ⟨rfl, hne, -⟩ := tryMergePair_eq_merge s p ca cb s' hA hB hacc
  have hcaMem : ca ∈ s.chains := List.mem_of_find?_eq_some hA
  have hcbMem : cb ∈ s.chains := List.mem_of_find?_eq_some hB
  have hremoved : ∀ c ∈ (mergeChains s ca cb).chains, c.id ≠ cb.id := by
    intro c hc
    rcases mergeChains_mem_elim s ca cb c hc with rfl | ⟨-, -, h2⟩
    · exact hne
    · exact h2
  refine ⟨mergeChains_new_mem s ca cb hcaMem hne, hremoved, ?_, ?_, ?_, ?_⟩
  · intro hmem
    unfold mergeChains at hmem
    simp only at hmem
    rw [List.mem_filter] at hmem
    simp at hmem
  · show ((s.chains.map (fun c => if c.id == ca.id then
        ({ id := ca.id, parts := ca.parts ++ cb.parts } : CompoundChain) else c)).filter
        (fun c => !(c.id == cb.id))).length + 1 = s.chains.length
    have := filter_remove_id_length cb.id
      (s.chains.map (fun c => if c.id == ca.id then
        ({ id := ca.id, parts := ca.parts ++ cb.parts } : CompoundChain) else c))
      (by rw [mergeMap_map_id]; exact hnodup)
      (by rw [mergeMap_map_id]; exact List.mem_map_of_mem (fun c => c.id) hcbMem)
    rw [this, List.length_map]
  · show linkBag ((s.chains.map (fun c => if c.id == ca.id then
        ({ id := ca.id, parts := ca.parts ++ cb.parts } : CompoundChain) else c)).filter
        (fun c => !(c.id == cb.id))) = linkBag s.chains
    have hmapped : cb ∈ s.chains.map (fun c => if c.id == ca.id then
        ({ id := ca.id, parts := ca.parts ++ cb.parts } : CompoundChain) else c) := by
      refine List.mem_map.mpr ⟨cb, hcbMem, ?_⟩
      rw [if_neg (by simp [Ne.symm hne])]
    have hfil := linkBag_filter_remove cb
      (s.chains.map (fun c => if c.id == ca.id then
        ({ id := ca.id, parts := ca.parts ++ cb.parts } : CompoundChain) else c))
      (by rw [mergeMap_map_id]; exact hnodup) hmapped
    have hmap := linkBag_mergeMap ca cb s.chains hnodup hcaMem
    have h2 : linkBag ((s.chains.map (fun c => if c.id == ca.id then
          ({ id := ca.id, parts := ca.parts ++ cb.parts } : CompoundChain) else c)).filter
          (fun c => !(c.id == cb.id))) + (cb.parts : Multiset CollisionBody)
        = linkBag s.chains + (cb.parts : Multiset CollisionBody) := by
      rw [hfil, hmap]
    exact add_right_cancel h2
  · intro ps
    rw [List.all_eq_true]
    intro c hc
    have hid := handleCollision_mem_id ps (mergeChains s ca cb) c hc
    obtain ⟨c0, hc0, he⟩ := List.mem_map.mp hid
    simp only [Bool.not_eq_eq_eq_not, Bool.not_true, beq_eq_false_iff_ne]
    rw [← he]
    exact hremoved c0 hc0

/-- C3 witness: the concrete accepted merge of the two witness chains. -/
theorem c3_witness :
    ({ id := rchainA.id, parts := rchainA.parts ++ rchainB.parts } : CompoundChain)
      ∈ (mergeChains rs0 rchainA rchainB).chains ∧
    rchainB.id ∉ (mergeChains rs0 rchainA rchainB).worldBodies ∧
    (mergeChains rs0 rchainA rchainB).chains.length + 1 = rs0.chains.length ∧
    linkBag (mergeChains rs0 rchainA rchainB).chains = linkBag rs0.chains ∧
    ((handleCollision (mergeChains rs0 rchainA rchainB) [rp0]).chains.all
      (fun c => !(c.id == rchainB.id))) = true := by
  obtain ⟨h1, h2, h3, h4, h5, h6⟩ :=
    c3_merge_absorbs_chain rs0 rp0 rchainA rchainB (mergeChains rs0 rchainA rchainB)
      (by decide) (by decide) (by decide) (by decide)
  exact ⟨h1, h3, h4, h5, h6 [rp0]⟩

/-- The lookup predicate of `findParentComposite` holds for a chain
exactly when the body's id lies in the chain's id pool. -/
theorem findPred_eq_mem_idBlock (c : CompoundChain) (body : CollisionBody) :
    (c.id == body.id || c.parts.any (fun b => b.id == body.id)) = true ↔
    body.id ∈ idBlock c := by
  simp only [idBlock, List.mem_cons, Bool.or_eq_true, beq_iff_eq, List.any_eq_true,
    List.mem_map]
  constructor
  · rintro (h | ⟨b, hb, e⟩)
    · exact Or.inl h.symm
    · exact Or.inr ⟨b, hb, by simpa using e⟩
  · rintro (h | ⟨b, hb, e⟩)
    · exact Or.inl h.symm
    · exact Or.inr ⟨b, hb, by simpa using e⟩

/-- The list of tracked chain ids is a sublist of the concatenation of
the chains' id pools. -/
theorem map_id_sublist_flat (l : List CompoundChain) :
    (l.map (fun c => c.id)).Sublist (l.flatMap idBlock) := by
  induction l with
  | nil => simp
  | cons c t ih =>
    simp only [List.map_cons, List.flatMap_cons, idBlock, List.cons_append]
    exact List.cons_sublist_cons.mpr (ih.trans (List.sublist_append_right _ _))

/-- A `find?` over a list returns the unique element satisfying the predicate. -/
theorem find?_eq_some_of_unique {α : Type} (p : α → Bool) :
    ∀ (l : List α) (x : α), x ∈ l → p x = true →
      (∀ y ∈ l, p y = true → y = x) → l.find? p = some x := by
  intro l
  induction l with
  | nil => intro x hx; cases hx
  | cons a t ih =>
    intro x hx hpx huniq
    by_cases ha : p a = true
    · rw [List.find?_cons_of_pos _ ha, huniq a (List.mem_cons_self a t) ha]
    · have hxt : x ∈ t := by
        rcases List.mem_cons.mp hx with rfl | h
        · exact absurd hpx ha
        · exact h
      rw [List.find?_cons_of_neg _ (by simpa using ha)]
      exact ih x hxt hpx (fun y hy hpy => huniq y (List.mem_cons_of_mem a hy) hpy)

/-- C5: once an accepted merge has absorbed `cb` into `ca`, re-presenting
the same (now co-resident) link pair resolves both bodies to the merged
chain, the same-chain check rejects the pair, and a new invocation on
just that pair leaves the state unchanged — under the engine invariant
that ids are globally unique and the colliding bodies are link parts of
their resolved chains. -/
theorem c5_merge_idempotence_guard (s : ResolverState) (p : CollisionPair)
    (ca cb : CompoundChain) (s' : ResolverState)
    (hA : findParentComposite s.chains p.bodyA = some ca)
    (hB : findParentComposite s.chains p.bodyB = some cb)
    (hacc : tryMergePair s p = some s')
    (hglob : (s.chains.flatMap idBlock).Nodup)
    (hA2 : p.bodyA.id ∈ ca.parts.map (fun b => b.id))
    (hB2 : p.bodyB.id ∈ cb.parts.map (fun b => b.id)) :
    findParentComposite s'.chains p.bodyA =
      some { id := ca.id, parts := ca.parts ++ cb.parts } ∧
    findParentComposite s'.chains p.bodyB =
      some { id := ca.id, parts := ca.parts ++ cb.parts } ∧
    tryMergePair s' p = none ∧
    handleCollision s' [p] = s' := by
  obtain ⟨rfl, hne, hl⟩ := tryMergePair_eq_merge s p ca cb s' hA hB hacc
  have hcaMem : ca ∈ s.chains := List.mem_of_find?_eq_some hA
  have hcbMem : cb ∈ s.chains := List.mem_of_find?_eq_some hB
  have hnodup : (s.chains.map (fun c => c.id)).Nodup :=
    hglob.sublist (map_id_sublist_flat s.chains)
  have hdisj : ∀ c1 ∈ s.chains, ∀ c2 ∈ s.chains, c1 ≠ c2 →
      List.Disjoint (idBlock c1) (idBlock c2) := by
    have hpair : List.Pairwise (Function.onFun List.Disjoint idBlock) s.chains :=
      (List.nodup_flatMap.mp hglob).2
    intro c1 h1 c2 h2 hne12
    exact hpair.forall (fun a b h => List.Disjoint.symm h) h1 h2 hne12
  set caNew : CompoundChain := { id := ca.id, parts := ca.parts ++ cb.parts } with hcaNew
  have hmemNew : caNew ∈ (mergeChains s ca cb).chains :=
    mergeChains_new_mem s ca cb hcaMem hne
  have hblockA : p.bodyA.id ∈ idBlock ca := List.mem_cons_of_mem _ hA2
  have hblockB : p.bodyB.id ∈ idBlock cb := List.mem_cons_of_mem _ hB2
  have hblockNewA : p.bodyA.id ∈ idBlock caNew := by
    simp only [hcaNew, idBlock, List.map_append, List.cons_append]
    exact List.mem_cons_of_mem _ (List.mem_append_left _ hA2)
  have hblockNewB : p.bodyB.id ∈ idBlock caNew := by
    simp only [hcaNew, idBlock, List.map_append, List.cons_append]
    exact List.mem_cons_of_mem _ (List.mem_append_right _ hB2)
  have huniqA : ∀ y ∈ (mergeChains s ca cb).chains,
      (y.id == p.bodyA.id || y.parts.any (fun b => b.id == p.bodyA.id)) = true →
      y = caNew := by
    intro y hy hpy
    rcases mergeChains_mem_elim s ca cb y hy with h | ⟨hmem, hya, -⟩
    · exact h
    · have hyne : y ≠ ca := fun e => hya (by rw [e])
      have := (findPred_eq_mem_idBlock y p.bodyA).mp hpy
      exact absurd hblockA (hdisj y hmem ca hcaMem hyne this)
  have huniqB : ∀ y ∈ (mergeChains s ca cb).chains,
      (y.id == p.bodyB.id || y.parts.any (fun b => b.id == p.bodyB.id)) = true →
      y = caNew := by
    intro y hy hpy
    rcases mergeChains_mem_elim s ca cb y hy with h | ⟨hmem, -, hyb⟩
    · exact h
    · have hyne : y ≠ cb := fun e => hyb (by rw [e])
      have := (findPred_eq_mem_idBlock y p.bodyB).mp hpy
      exact absurd hblockB (hdisj y hmem cb hcbMem hyne this)
  have hfindA : findParentComposite (mergeChains s ca cb).chains p.bodyA = some caNew :=
    find?_eq_some_of_unique _ _ caNew hmemNew
      ((findPred_eq_mem_idBlock caNew p.bodyA).mpr hblockNewA) huniqA
  have hfindB : findParentComposite (mergeChains s ca cb).chains p.bodyB = some caNew :=
    find?_eq_some_of_unique _ _ caNew hmemNew
      ((findPred_eq_mem_idBlock caNew p.bodyB).mpr hblockNewB) huniqB
  have hnone : tryMergePair (mergeChains s ca cb) p = none := by
    unfold tryMergePair
    rw [if_pos hl, hfindA, hfindB]
    dsimp only
    rw [if_pos (by simp)]
  exact ⟨hfindA, hfindB, hnone, by simp [handleCollision, hnone]⟩

/-- C5 witness: the concrete accepted merge of the two witness chains,
then the same pair presented again. -/
theorem c5_witness :
    findParentComposite (mergeChains rs0 rchainA rchainB).chains rp0.bodyA =
      some { id := rchainA.id, parts := rchainA.parts ++ rchainB.parts } ∧
    findParentComposite (mergeChains rs0 rchainA rchainB).chains rp0.bodyB =
      some { id := rchainA.id, parts := rchainA.parts ++ rchainB.parts } ∧
    tryMergePair (mergeChains rs0 rchainA rchainB) rp0 = none ∧
    handleCollision (mergeChains rs0 rchainA rchainB) [rp0] =
      mergeChains rs0 rchainA rchainB :=
  c5_merge_idempotence_guard rs0 rp0 rchainA rchainB (mergeChains rs0 rchainA rchainB)
    (by decide) (by decide) (by decide) (by decide) (by decide) (by decide)

/-- Since `indexOf` finds the first occurrence, on `pre ++ a :: post` with `a`
not in `pre` it returns `pre.length`. -/
theorem indexOf_pre_append (a : Nat) (pre post : List Nat) (h : a ∉ pre) :
    (pre ++ a :: post).indexOf a = pre.length := by
  rw [List.indexOf_append_of_not_mem h, List.indexOf_cons_self, Nat.add_zero]

/-- Elements of a spliced registry are the two inserted chains or
elements of the original registry. -/
theorem mem_spliceReplace (t c1 c2 : PComposite) :
    ∀ (l : List PComposite) (x : PComposite), x ∈ spliceReplace l t c1 c2 →
      x = c1 ∨ x = c2 ∨ x ∈ l := by
  intro l
  induction l with
  | nil => intro x hx; cases hx
  | cons a rest ih =>
    intro x hx
    rw [spliceReplace] at hx
    by_cases hat : a = t
    · rw [if_pos hat] at hx
      rcases List.mem_cons.mp hx with rfl | hx2
      · exact Or.inl rfl
      · rcases List.mem_cons.mp hx2 with rfl | hx3
        · exact Or.inr (Or.inl rfl)
        · exact Or.inr (Or.inr (List.mem_cons_of_mem a hx3))
    · rw [if_neg hat] at hx
      rcases List.mem_cons.mp hx with rfl | hx2
      · exact Or.inr (Or.inr (List.mem_cons_self _ _))
      · rcases ih x hx2 with h | h | h
        · exact Or.inl h
        · exact Or.inr (Or.inl h)
        · exact Or.inr (Or.inr (List.mem_cons_of_mem a h))

/-- Dropping empty chains after a splice is a no-op when the previous
registry and the two inserted chains are all nonempty. -/
theorem filter_nonempty_spliceReplace (l : List PComposite) (t c1 c2 : PComposite)
    (hl : ∀ c ∈ l, c.bodies ≠ []) (h1 : c1.bodies ≠ []) (h2 : c2.bodies ≠ []) :
    (spliceReplace l t c1 c2).filter (fun c => !c.bodies.isEmpty) =
      spliceReplace l t c1 c2 := by
  rw [List.filter_eq_self]
  intro x hx
  have hne : x.bodies ≠ [] := by
    rcases mem_spliceReplace t c1 c2 l x hx with rfl | rfl | h
    · exact h1
    · exact h2
    · exact hl x h
  simp [List.isEmpty_iff, hne]

/-- C6: in the puzzle variant's idle state, clicking an interior link of
a tracked chain (decomposed as `pre ++ clicked :: post` with both sides
nonempty) removes every world constraint touching that link, replaces
the chain in the registry by the two sub-chains `pre` and `post` — the
clicked link belongs to neither — opens the session on the clicked link
and moves the controller to `LINK_OPENED`. -/
theorem c6_idle_click_splits_chain (s : PuzzleState) (ch : PComposite)
    (clicked : Nat) (pre post : List Nat)
    (hstate : s.gameState = GameState.IDLE)
    (hfind : getBodyChain s.chains clicked = some ch)
    (hbody : ch.bodies = pre ++ clicked :: post)
    (hpre : clicked ∉ pre) (hpost : clicked ∉ post)
    (hpreNe : pre ≠ []) (hpostNe : post ≠ [])
    (htouch : (s.world.filter (fun c => touches c clicked)).length ≤ 2)
    (hnonempty : ∀ c ∈ s.chains, c.bodies ≠ []) :
    ∃ c1 c2 : PComposite,
      (handleMouseDown s clicked).chains = spliceReplace s.chains ch c1 c2 ∧
      c1.bodies = pre ∧ c2.bodies = post ∧
      clicked ∉ c1.bodies ∧ clicked ∉ c2.bodies ∧
      ch.bodies.length = pre.length + 1 + post.length ∧
      (handleMouseDown s clicked).world =
        s.world.filter (fun c => !(touches c clicked)) ∧
      (handleMouseDown s clicked).gameState = GameState.LINK_OPENED ∧
      (handleMouseDown s clicked).openLinkInfo =
        some ⟨clicked, s.world.filter (fun c => touches c clicked), [], []⟩ := by
  have htake : ch.bodies.take (ch.bodies.indexOf clicked) = pre := by
    rw [hbody, indexOf_pre_append clicked pre post hpre]
    exact List.take_left pre _
  have hdrop : ch.bodies.drop (ch.bodies.indexOf clicked + 1) = post := by
    rw [hbody, indexOf_pre_append clicked pre post hpre]
    have he : pre ++ clicked :: post = (pre ++ [clicked]) ++ post := by simp
    rw [he, show pre.length + 1 = (pre ++ [clicked]).length by simp]
    exact List.drop_left _ _
  have hmain : handleMouseDown s clicked = handleIdle s clicked := by
    unfold handleMouseDown
    rw [hstate]
  rw [hmain]
  unfold handleIdle
  rw [hfind]
  dsimp only
  rw [if_neg (by omega)]
  rw [htake, hdrop]
  refine ⟨⟨s.nextId, pre, (mkChainConstraints (s.nextId + 2) pre).1⟩,
    ⟨s.nextId + 1, post, (mkChainConstraints (mkChainConstraints (s.nextId + 2) pre).2 post).1⟩,
    ?_, rfl, rfl, hpre, hpost, by simp [hbody]; omega, rfl, rfl, rfl⟩
  exact filter_nonempty_spliceReplace s.chains ch _ _ hnonempty hpreNe hpostNe

/-- C6 witness: clicking the middle link of the concrete three-link
chain. -/
theorem c6_witness :
    (handleMouseDown ps0 1).gameState = GameState.LINK_OPENED ∧
    (handleMouseDown ps0 1).world = [] ∧
    (handleMouseDown ps0 1).openLinkInfo = some ⟨1, [w01, w12], [], []⟩ := by
  obtain ⟨c1, c2, hch, hb1, hb2, hn1, hn2, hlen, hw, hg, hs⟩ :=
    c6_idle_click_splits_chain ps0 ⟨7, [0, 1, 2], [w01, w12]⟩ 1 [0] [2] rfl (by decide)
      rfl (by decide) (by decide) (by decide) (by decide) (by decide) (by decide)
  exact ⟨hg, hw.trans (by decide), hs.trans (by decide)⟩

/-! ## Claims settled by evaluating the puzzle variant on reachable
traces from its initial state -/

/-- C1 fails on the code: after the reachable finalize trace (open link
1, connect end 2, close), the registry's rebuilt chains own structural
constraints, yet none of them is present in the physics world — the
rebuilt composites are never added to the world, so the registry and the
world's constraint graph disagree right after the handler returns. -/
theorem c1_finalize_world_registry_disagree :
    puzzleFinalizeTrace.gameState = GameState.IDLE ∧
    (puzzleFinalizeTrace.chains.flatMap (fun c => c.constraints)) ≠ [] ∧
    ((puzzleFinalizeTrace.chains.flatMap (fun c => c.constraints)).all
      (fun c => !(puzzleFinalizeTrace.world.contains c))) = true := by
  decide

/-- C7 fails on the code: opening the middle link `1` of the initial
chain and then clicking it again with zero connections does restore the
removed constraints to the world and return to idle, but the registry
still holds the two split sub-chains `[0]` and `[2..9]` — not a single
chain equal to the original — and the opened link belongs to no chain. -/
theorem c7_cancel_keeps_split_registry :
    (handleMouseDown (handleMouseDown initPuzzleState 1) 1).gameState = GameState.IDLE ∧
    (handleMouseDown (handleMouseDown initPuzzleState 1) 1).openLinkInfo = none ∧
    ((initPuzzleState.world.all
      (fun c => (handleMouseDown (handleMouseDown initPuzzleState 1) 1).world.contains c))
      = true) ∧
    (handleMouseDown (handleMouseDown initPuzzleState 1) 1).chains.map (fun c => c.bodies)
      = [[0], [2, 3, 4, 5, 6, 7, 8, 9]] ∧
    getBodyChain (handleMouseDown (handleMouseDown initPuzzleState 1) 1).chains 1 = none := by
  decide

/-- C8 fails on the code: in the reachable finalize trace the session's
single connected end is link `2`, the head of the absorbed chain
`[2..9]`; finalize reverses that chain, so the merged sequence is
`[1, 9, 8, ..., 2]` and the connected end `2` lands as far as possible
from the opened link `1` instead of adjacent to it. -/
theorem c8_finalize_misorients_absorbed_chain :
    (handleMouseDown (handleMouseDown initPuzzleState 1) 2).openLinkInfo =
      some ⟨1, [initConstraint 0, initConstraint 1], [2],
        [⟨309, some 1, some 2, "Constraint"⟩]⟩ ∧
    (getBodyChain (handleMouseDown (handleMouseDown initPuzzleState 1) 2).chains 2).map
      (fun c => c.bodies) = some [2, 3, 4, 5, 6, 7, 8, 9] ∧
    puzzleFinalizeTrace.chains.map (fun c => c.bodies)
      = [[0], [1, 9, 8, 7, 6, 5, 4, 3, 2]] := by
  decide

/-- C9 fails on the code: the instruction is chosen from the session
*before* the update, so the first accepted connection (session
`connectedEnds` becomes `[2]`) shows the two-ends/close prompt and the
second one (session becomes `[2, 9]`) shows the one-end prompt — the
two messages are swapped. -/
theorem c9_instruction_swapped_after_connection :
    ((handleMouseDown (handleMouseDown initPuzzleState 1) 2).openLinkInfo.map
      (fun i => i.connectedEnds)) = some [2] ∧
    (handleMouseDown (handleMouseDown initPuzzleState 1) 2).instruction =
      "Connected two ends. Click the yellow link to close the connection." ∧
    ((handleMouseDown (handleMouseDown (handleMouseDown initPuzzleState 1) 2) 9).openLinkInfo.map
      (fun i => i.connectedEnds)) = some [2, 9] ∧
    (handleMouseDown (handleMouseDown (handleMouseDown initPuzzleState 1) 2) 9).instruction =
      "Connected one end. Click another end or click the yellow link to close." := by
  decide

/-- C10: a reachable session in which both end links (`2` and `9`) of
one and the same registry chain are accepted as two separate
connections, after which finalize absorbs that single chain connected at
both of its ends. -/
theorem c10_both_ends_of_single_chain_connectable :
    (getBodyChain (handleMouseDown initPuzzleState 1).chains 2 =
      getBodyChain (handleMouseDown initPuzzleState 1).chains 9) ∧
    ((getBodyChain (handleMouseDown initPuzzleState 1).chains 2).map
      (fun c => compositeEnds c)) = some [2, 9] ∧
    ((handleMouseDown (handleMouseDown (handleMouseDown initPuzzleState 1) 2) 9).openLinkInfo.map
      (fun i => i.connectedEnds)) = some [2, 9] ∧
    (handleMouseDown (handleMouseDown (handleMouseDown initPuzzleState 1) 2) 9).gameState =
      GameState.CONNECTING ∧
    (handleMouseDown (handleMouseDown (handleMouseDown (handleMouseDown
        initPuzzleState 1) 2) 9) 1).gameState = GameState.IDLE ∧
    (handleMouseDown (handleMouseDown (handleMouseDown (handleMouseDown
        initPuzzleState 1) 2) 9) 1).chains.map (fun c => c.bodies)
      = [[0], [1, 9, 8, 7, 6, 5, 4, 3, 2]] := by
  decide
